import Mathlib

/-!
Formal model of the IBM CIS DNS provider record reconciliation engine
(`pkg/dns/ibm/dns.go`): input validation, zone-client resolution, TTL
normalization, the per-target upsert loop of `createOrUpdateDNSRecord`
(used by `Ensure` and `Replace`), and the per-target delete loop of
`Delete`.

The remote DNS client (the IBM `dnsrecordsv1` SDK) is out of scope of the
source; it is modelled as an abstract state-passing capability `MClient σ`.
Operations additionally return the list of remote calls they issued (the
trace), so that "zero remote calls" and "which name/TTL was sent" are
provable statements. Go's pointer-typed values (`*DNSRecord`, `*string`
record ids, `*DetailedResponse`) are modelled with `Option`; a nil-pointer
dereference is modelled as the distinguished outcome `Outcome.nilDeref`.
Go `int64` TTLs are modelled as `Int` (no arithmetic is performed on them,
so no overflow wrap is involved).
-/

namespace ibm

/-- The relevant fields of `iov1.DNSRecord.Spec` (dns.go uses exactly
`DNSName`, `RecordType`, `Targets`, `RecordTTL`). -/
structure DNSRecordSpec where
  dnsName : String
  recordType : String
  targets : List String
  recordTTL : Int
deriving DecidableEq

/-- The relevant field of `configv1.DNSZone` (dns.go uses only `zone.ID`). -/
structure DNSZone where
  id : String
deriving DecidableEq

/-- Model of Go `strings.TrimSuffix s suffix`: if `suffix` is a suffix of
`s`, remove that single occurrence from the end, otherwise return `s`
unchanged. -/
def trimSuffix (s suffix : String) : String :=
  if suffix.data.isSuffixOf s.data then ⟨s.data.take (s.data.length - suffix.data.length)⟩ else s

/-- `defaultCISRecordTTL = int64(120)` from dns.go. -/
def defaultCISRecordTTL : Int := 120

/-- Model of `validateInputDNSData` (dns.go lines 218-238): collect one
error message per violated rule; the nested record-field checks run only
when the record pointer is non-nil. -/
def validateInputDNSData (record : Option DNSRecordSpec) (zone : DNSZone) : List String :=
  (match record with
   | none => ["validateInputDNSData: dns record is nil"]
   | some r =>
     (if r.dnsName.length = 0 then ["validateInputDNSData: dns record name is empty"] else []) ++
     (if r.recordType.length = 0 then ["validateInputDNSData: dns record type is empty"] else []) ++
     (if r.targets.length = 0 then ["validateInputDNSData: dns record content is empty"] else []))
  ++ (if zone.id.length = 0 then ["validateInputDNSData: dns zone id is empty"] else [])

/-- Model of `kerrors.NewAggregate`: an empty error list yields no error,
a non-empty list yields one combined error carrying every constituent. -/
def NewAggregate (errs : List String) : Option (List String) :=
  if errs.isEmpty then none else some errs

/-- The TTL normalization of `createOrUpdateDNSRecord` (dns.go lines
167-171): if `(ttl > 1 && ttl < 120) || ttl == 0` the record TTL is set to
`defaultCISRecordTTL`, otherwise it is left unchanged. -/
def normalizeRecordTTL (requestedTTL : Int) : Int :=
  if (requestedTTL > 1 ∧ requestedTTL < 120) ∨ requestedTTL = 0 then defaultCISRecordTTL
  else requestedTTL

/-- One element of a list response (`dnsrecordsv1.DnsrecordDetails`): the
provider-assigned id is a Go `*string`, hence `Option`. Record ids are
opaque; they are modelled as `Nat`. -/
structure DnsRecordResult where
  id : Option Nat
deriving DecidableEq

/-- The triple a Go `ListAllDnsRecords` call produces: `err` models a
non-nil error, `statusCode` models `response.StatusCode` (with `none` for a
nil `response`), and `result` models `result.Result` (with `none` when
either `result` or `result.Result` is nil). -/
structure GoListResponse where
  err : Bool
  statusCode : Option Int
  result : Option (List DnsRecordResult)
deriving DecidableEq

/-- The pair a Go `DeleteDnsRecord` call produces (the first return value
is unused by dns.go). -/
structure GoDeleteResponse where
  err : Bool
  statusCode : Option Int
deriving DecidableEq

/-- The Go guard `response != nil && response.StatusCode != http.StatusNotFound`:
`true` exactly when a response exists and its status is not 404. dns.go
treats a failure as fatal only under this guard. -/
def fatalStatus : Option Int → Bool
  | none => false
  | some code => code != 404

/-- Abstract zone-scoped DNS client capability (`dnsclient.DnsClient`),
state-passing over a client-state type `σ`. `list` takes
`(recordType, name, content)` filters; `create` takes
`(name, recordType, content, ttl)`; `update` additionally takes the entry
id; `delete` takes the entry id. Each returns the Go call results plus the
successor state. -/
structure MClient (σ : Type) where
  list : σ → String → String → String → GoListResponse × σ
  create : σ → String → String → String → Int → Bool × σ
  update : σ → Nat → String → String → String → Int → Bool × σ
  delete : σ → Nat → GoDeleteResponse × σ

/-- One remote call, as recorded in an operation's trace. -/
inductive RemoteCall where
  | list (recType name content : String)
  | create (name recType content : String) (ttl : Int)
  | update (id : Nat) (name recType content : String) (ttl : Int)
  | delete (id : Nat)
deriving DecidableEq

/-- Discriminator for create calls in a trace. -/
def RemoteCall.isCreate : RemoteCall → Bool
  | .create _ _ _ _ => true
  | _ => false

/-- The error cases dns.go surfaces to its caller, mirroring its
`fmt.Errorf` sites. -/
inductive OpError where
  | validation (errs : List String)
  | unknownZone (zoneID : String)
  | listFailed
  | invalidResult
  | createFailed
  | updateFailed
  | deleteFailed
  | nilRecordID
deriving DecidableEq

/-- Result of an operation: normal return of `nil` (`ok`), return of a
non-nil error (`errOut`), or a Go nil-pointer dereference (`nilDeref`). -/
inductive Outcome where
  | ok
  | errOut (e : OpError)
  | nilDeref
deriving DecidableEq

/-- Result of a per-target loop: outcome, issued remote calls in order,
and the final client state. -/
structure LoopResult (σ : Type) where
  outcome : Outcome
  trace : List RemoteCall
  state : σ
deriving DecidableEq

/-- Result of a whole operation: outcome, trace, final client state, and
the caller-visible record after the call (dns.go mutates
`record.Spec.RecordTTL` through the pointer). -/
structure OpResult (σ : Type) where
  outcome : Outcome
  trace : List RemoteCall
  state : σ
  record : Option DNSRecordSpec
deriving DecidableEq

/-- The provider: `dnsServices` maps a zone id to its client
(`p.dnsServices[zone.ID]` with `none` for a missing key). -/
structure Provider (σ : Type) where
  dnsServices : String → Option (MClient σ)

/-- The per-target loop of `createOrUpdateDNSRecord` (dns.go lines
178-213): list with the trimmed name filter; on a list error, fail unless
the response is nil or 404 (then skip the target); on a nil result fail;
on an empty result create with the original name; otherwise dereference
the first entry's id (nil id means a Go nil dereference) and update with
the original name. Any fatal step error returns immediately. -/
def upsertLoop (c : MClient σ) (dnsName trimmedName recType : String) (ttl : Int) :
    List String → σ → LoopResult σ
  | [], s => ⟨.ok, [], s⟩
  | target :: ts, s =>
    let p := c.list s recType trimmedName target
    let call := RemoteCall.list recType trimmedName target
    if p.1.err then
      if fatalStatus p.1.statusCode then ⟨.errOut .listFailed, [call], p.2⟩
      else
        let r := upsertLoop c dnsName trimmedName recType ttl ts p.2
        ⟨r.outcome, call :: r.trace, r.state⟩
    else
      match p.1.result with
      | none => ⟨.errOut .invalidResult, [call], p.2⟩
      | some [] =>
        let q := c.create p.2 dnsName recType target ttl
        let ccall := RemoteCall.create dnsName recType target ttl
        if q.1 then ⟨.errOut .createFailed, [call, ccall], q.2⟩
        else
          let r := upsertLoop c dnsName trimmedName recType ttl ts q.2
          ⟨r.outcome, call :: ccall :: r.trace, r.state⟩
      | some (entry :: _) =>
        match entry.id with
        | none => ⟨.nilDeref, [call], p.2⟩
        | some rid =>
          let q := c.update p.2 rid dnsName recType target ttl
          let ucall := RemoteCall.update rid dnsName recType target ttl
          if q.1 then ⟨.errOut .updateFailed, [call, ucall], q.2⟩
          else
            let r := upsertLoop c dnsName trimmedName recType ttl ts q.2
            ⟨r.outcome, call :: ucall :: r.trace, r.state⟩

/-- Model of `createOrUpdateDNSRecord` (dns.go lines 158-216): validate,
resolve the zone client, normalize the TTL (mutating the record), then run
the per-target loop with the trailing-dot-trimmed name as the list filter
and the original name for create/update. -/
def createOrUpdateDNSRecord (p : Provider σ) (record : Option DNSRecordSpec) (zone : DNSZone)
    (s : σ) : OpResult σ :=
  match validateInputDNSData record zone with
  | e :: es => ⟨.errOut (.validation (e :: es)), [], s, record⟩
  | [] =>
    match p.dnsServices zone.id with
    | none => ⟨.errOut (.unknownZone zone.id), [], s, record⟩
    | some dnsService =>
      match record with
      | none => ⟨.nilDeref, [], s, record⟩
      | some r =>
        let newTTL := normalizeRecordTTL r.recordTTL
        let r' : DNSRecordSpec := { r with recordTTL := newTTL }
        let lr := upsertLoop dnsService r'.dnsName (trimSuffix r'.dnsName ".") r'.recordType
          r'.recordTTL r'.targets s
        ⟨lr.outcome, lr.trace, lr.state, some r'⟩

/-- `Ensure` delegates to `createOrUpdateDNSRecord` (dns.go line 108). -/
def Provider.Ensure (p : Provider σ) (record : Option DNSRecordSpec) (zone : DNSZone)
    (s : σ) : OpResult σ :=
  createOrUpdateDNSRecord p record zone s

/-- `Replace` delegates to `createOrUpdateDNSRecord` (dns.go line 112). -/
def Provider.Replace (p : Provider σ) (record : Option DNSRecordSpec) (zone : DNSZone)
    (s : σ) : OpResult σ :=
  createOrUpdateDNSRecord p record zone s

/-- The inner entry loop of `Delete` (dns.go lines 139-153): for each
listed entry, fail on a nil id, issue the delete, and fail only when the
delete errs with a non-nil non-404 response; otherwise keep going. -/
def deleteEntriesLoop (c : MClient σ) : List DnsRecordResult → σ → LoopResult σ
  | [], s => ⟨.ok, [], s⟩
  | entry :: es, s =>
    match entry.id with
    | none => ⟨.errOut .nilRecordID, [], s⟩
    | some rid =>
      let p := c.delete s rid
      let call := RemoteCall.delete rid
      if p.1.err && fatalStatus p.1.statusCode then ⟨.errOut .deleteFailed, [call], p.2⟩
      else
        let r := deleteEntriesLoop c es p.2
        ⟨r.outcome, call :: r.trace, r.state⟩

/-- The per-target loop of `Delete` (dns.go lines 127-154): list with the
exact (untrimmed) name filter; a list error is fatal unless the response
is nil or 404 (then skip the target); a nil result is fatal; otherwise
delete every listed entry. -/
def deleteTargetsLoop (c : MClient σ) (dnsName recType : String) :
    List String → σ → LoopResult σ
  | [], s => ⟨.ok, [], s⟩
  | target :: ts, s =>
    let p := c.list s recType dnsName target
    let call := RemoteCall.list recType dnsName target
    if p.1.err then
      if fatalStatus p.1.statusCode then ⟨.errOut .listFailed, [call], p.2⟩
      else
        let r := deleteTargetsLoop c dnsName recType ts p.2
        ⟨r.outcome, call :: r.trace, r.state⟩
    else
      match p.1.result with
      | none => ⟨.errOut .invalidResult, [call], p.2⟩
      | some entries =>
        let er := deleteEntriesLoop c entries p.2
        match er.outcome with
        | .ok =>
          let r := deleteTargetsLoop c dnsName recType ts er.state
          ⟨r.outcome, call :: (er.trace ++ r.trace), r.state⟩
        | o => ⟨o, call :: er.trace, er.state⟩

/-- Model of `Delete` (dns.go lines 116-156): validate, resolve the zone
client, then run the per-target delete loop. The record is never
mutated. -/
def Provider.Delete (p : Provider σ) (record : Option DNSRecordSpec) (zone : DNSZone)
    (s : σ) : OpResult σ :=
  match validateInputDNSData record zone with
  | e :: es => ⟨.errOut (.validation (e :: es)), [], s, record⟩
  | [] =>
    match p.dnsServices zone.id with
    | none => ⟨.errOut (.unknownZone zone.id), [], s, record⟩
    | some dnsService =>
      match record with
      | none => ⟨.nilDeref, [], s, record⟩
      | some r =>
        let lr := deleteTargetsLoop dnsService r.dnsName r.recordType r.targets s
        ⟨lr.outcome, lr.trace, lr.state, record⟩

/-- One stored record entry of the in-memory remote store. -/
structure StoreEntry where
  id : Nat
  name : String
  recType : String
  content : String
  ttl : Int
deriving DecidableEq

/-- The in-memory remote store: the stored entries plus the next fresh
provider-assigned id. -/
structure Store where
  entries : List StoreEntry
  nextId : Nat
deriving DecidableEq

/-- The store with no entries. -/
def emptyStore : Store := ⟨[], 0⟩

/-- The list filter of the remote provider: exact match on name, record
type, and content. -/
def entryMatches (name recType content : String) (e : StoreEntry) : Bool :=
  e.name == name && e.recType == recType && e.content == content

/-- Modelled from the spec: the provider's `ListRecords` operation (the
IBM SDK's `ListAllDnsRecords` is not part of the source), returning the
complete result set filtered by `(name, recordType, content)`. -/
def storeList (s : Store) (recType name content : String) : GoListResponse × Store :=
  (⟨false, some 200, some ((s.entries.filter (entryMatches name recType content)).map
    (fun e => ⟨some e.id⟩))⟩, s)

/-- Modelled from the spec: the provider's `CreateRecord` operation. The
provider assigns a fresh opaque id and stores the entry under its
canonical name (a trailing root-zone dot is not stored, which is why the
source strips it from the list filter). -/
def storeCreate (s : Store) (name recType content : String) (ttl : Int) : Bool × Store :=
  (false, ⟨s.entries ++ [⟨s.nextId, trimSuffix name ".", recType, content, ttl⟩], s.nextId + 1⟩)

/-- Modelled from the spec: the provider's `UpdateRecord` operation,
mutating the entry with the given id in place (same id) and failing when
no such entry exists. -/
def storeUpdate (s : Store) (rid : Nat) (name recType content : String) (ttl : Int) :
    Bool × Store :=
  if s.entries.any (fun e => e.id == rid) then
    (false, ⟨s.entries.map (fun e =>
      if e.id == rid then ⟨rid, trimSuffix name ".", recType, content, ttl⟩ else e), s.nextId⟩)
  else (true, s)

/-- Modelled from the spec: the provider's `DeleteRecord` operation,
removing the entry with the given id and answering 404 when it is
absent. -/
def storeDelete (s : Store) (rid : Nat) : GoDeleteResponse × Store :=
  if s.entries.any (fun e => e.id == rid) then
    (⟨false, some 200⟩, ⟨s.entries.filter (fun e => !(e.id == rid)), s.nextId⟩)
  else (⟨true, some 404⟩, s)

/-- The in-memory remote client assembled from the store operations. -/
def storeClient : MClient Store := ⟨storeList, storeCreate, storeUpdate, storeDelete⟩

/-- A provider registry holding the store client under one zone id. -/
def storeProvider (zoneID : String) : Provider Store :=
  ⟨fun z => if z == zoneID then some storeClient else none⟩

/-! ## Helper lemmas -/

theorem string_length_zero (s : String) : s.length = 0 ↔ s = "" := by
  constructor
  · intro h
    cases s with
    | mk data =>
      cases data with
      | nil => rfl
      | cons a l => simp [String.length] at h
  · intro h
    subst h
    rfl

theorem validate_some_nil_iff (r : DNSRecordSpec) (zone : DNSZone) :
    validateInputDNSData (some r) zone = [] ↔
      r.dnsName ≠ "" ∧ r.recordType ≠ "" ∧ r.targets ≠ [] ∧ zone.id ≠ "" := by
  simp [validateInputDNSData, string_length_zero, List.length_eq_zero]

theorem validate_none_ne_nil (zone : DNSZone) : validateInputDNSData none zone ≠ [] := by
  simp [validateInputDNSData]

/-- Unfolding of `createOrUpdateDNSRecord` on the success path of
validation and zone resolution. -/
theorem createOrUpdate_run (p : Provider σ) (r : DNSRecordSpec) (zone : DNSZone) (s : σ)
    (cl : MClient σ) (hv : validateInputDNSData (some r) zone = [])
    (hc : p.dnsServices zone.id = some cl) :
    createOrUpdateDNSRecord p (some r) zone s =
      ⟨(upsertLoop cl r.dnsName (trimSuffix r.dnsName ".") r.recordType
          (normalizeRecordTTL r.recordTTL) r.targets s).outcome,
       (upsertLoop cl r.dnsName (trimSuffix r.dnsName ".") r.recordType
          (normalizeRecordTTL r.recordTTL) r.targets s).trace,
       (upsertLoop cl r.dnsName (trimSuffix r.dnsName ".") r.recordType
          (normalizeRecordTTL r.recordTTL) r.targets s).state,
       some { r with recordTTL := normalizeRecordTTL r.recordTTL }⟩ := by
  simp [createOrUpdateDNSRecord, hv, hc]

/-- Unfolding of `Delete` on the success path of validation and zone
resolution. -/
theorem delete_run (p : Provider σ) (r : DNSRecordSpec) (zone : DNSZone) (s : σ)
    (cl : MClient σ) (hv : validateInputDNSData (some r) zone = [])
    (hc : p.dnsServices zone.id = some cl) :
    p.Delete (some r) zone s =
      ⟨(deleteTargetsLoop cl r.dnsName r.recordType r.targets s).outcome,
       (deleteTargetsLoop cl r.dnsName r.recordType r.targets s).trace,
       (deleteTargetsLoop cl r.dnsName r.recordType r.targets s).state,
       some r⟩ := by
  simp [Provider.Delete, hv, hc]

/-- `Delete` returns the record it was given, in every branch. -/
theorem delete_record_eq (p : Provider σ) (record : Option DNSRecordSpec) (zone : DNSZone)
    (s : σ) : (p.Delete record zone s).record = record := by
  unfold Provider.Delete
  rcases h : validateInputDNSData record zone with _ | ⟨e, es⟩
  · rcases h2 : p.dnsServices zone.id with _ | cl
    · simp
    · rcases record with _ | r <;> simp
  · simp

/-! ## Claim C2: TTL normalization policy -/

/-- Claim C2, counterexample: the claim says every requested TTL with
`0 < requestedTTL < 120` is normalized to the default 120, but the code
normalizes only for `requestedTTL > 1`, so the sentinel 1 — which
satisfies `0 < 1 < 120` — is returned unchanged. -/
theorem ttl_policy_counterexample :
    ¬ (∀ requestedTTL : Int, ((0 < requestedTTL ∧ requestedTTL < 120) ∨ requestedTTL = 0) →
        normalizeRecordTTL requestedTTL = 120) := by
  intro h
  have h1 := h 1 (Or.inl (by decide))
  rw [show normalizeRecordTTL 1 = 1 from by decide] at h1
  exact absurd h1 (by decide)

/-- Claim C2 (amended): the TTL normalization returns the fixed default
120 exactly when `1 < requestedTTL < 120` or `requestedTTL == 0`;
otherwise the requested TTL is returned unchanged, passing through the
automatic sentinel 1, any value `>= 120`, and any negative value. -/
theorem ttl_policy (requestedTTL : Int) :
    (((1 < requestedTTL ∧ requestedTTL < 120) ∨ requestedTTL = 0) →
      normalizeRecordTTL requestedTTL = 120) ∧
    (¬((1 < requestedTTL ∧ requestedTTL < 120) ∨ requestedTTL = 0) →
      normalizeRecordTTL requestedTTL = requestedTTL) := by
  constructor <;> intro h <;>
    simp only [normalizeRecordTTL, defaultCISRecordTTL] <;> split_ifs with h' <;> omega

/-- Claim C2, witness at requested TTLs 50 (normalized) and 1 (passed
through). -/
theorem ttl_policy_witness : normalizeRecordTTL 50 = 120 ∧ normalizeRecordTTL 1 = 1 :=
  ⟨(ttl_policy 50).1 (by omega), (ttl_policy 1).2 (by omega)⟩

/-! ## Claim C3: TTL clamping table -/

/-- The TTLs of the create calls `Ensure` issues for a one-target record
with the given requested TTL, against the in-memory provider with no
pre-existing entries. -/
def effectiveCreateTTLs (requestedTTL : Int) : List Int :=
  ((storeProvider "z").Ensure (some ⟨"n", "A", ["t"], requestedTTL⟩) ⟨"z"⟩
      emptyStore).trace.filterMap
    (fun call => match call with | .create _ _ _ ttl => some ttl | _ => none)

/-- The TTLs of the update calls a second identical `Ensure` issues, after
a first `Ensure` from the empty store created the entry. -/
def effectiveUpdateTTLs (requestedTTL : Int) : List Int :=
  ((storeProvider "z").Ensure (some ⟨"n", "A", ["t"], requestedTTL⟩) ⟨"z"⟩
      ((storeProvider "z").Ensure (some ⟨"n", "A", ["t"], requestedTTL⟩) ⟨"z"⟩
        emptyStore).state).trace.filterMap
    (fun call => match call with | .update _ _ _ _ ttl => some ttl | _ => none)

/-- Claim C3: for requested TTL values
`{0, 1, 50, 119, 120, 121, 2147483647}` the effective TTL carried by the
create call (and by the update call of a repeated `Ensure`) is
`{120, 1, 120, 120, 120, 121, 2147483647}` respectively. -/
theorem ttl_clamping_table :
    (effectiveCreateTTLs 0 = [120] ∧ effectiveUpdateTTLs 0 = [120]) ∧
    (effectiveCreateTTLs 1 = [1] ∧ effectiveUpdateTTLs 1 = [1]) ∧
    (effectiveCreateTTLs 50 = [120] ∧ effectiveUpdateTTLs 50 = [120]) ∧
    (effectiveCreateTTLs 119 = [120] ∧ effectiveUpdateTTLs 119 = [120]) ∧
    (effectiveCreateTTLs 120 = [120] ∧ effectiveUpdateTTLs 120 = [120]) ∧
    (effectiveCreateTTLs 121 = [121] ∧ effectiveUpdateTTLs 121 = [121]) ∧
    (effectiveCreateTTLs 2147483647 = [2147483647] ∧
      effectiveUpdateTTLs 2147483647 = [2147483647]) := by
  decide

/-! ## Claim C5: validation rules -/

/-- Claim C5: validation produces one failure per violated rule (without
stopping at the first), aggregates them into one error, and passes exactly
when no rule is violated. For a non-nil record the error count is the
count of violated field rules; for a nil record the nested field rules are
not consulted and the nil-record rule itself contributes one failure. -/
theorem validation_rules (record : Option DNSRecordSpec) (zone : DNSZone) :
    (validateInputDNSData record zone = [] ↔
      zone.id ≠ "" ∧ ∃ r, record = some r ∧
        r.dnsName ≠ "" ∧ r.recordType ≠ "" ∧ r.targets ≠ []) ∧
    (∀ r, record = some r →
      (validateInputDNSData record zone).length =
        (if r.dnsName = "" then 1 else 0) + (if r.recordType = "" then 1 else 0) +
        (if r.targets = [] then 1 else 0) + (if zone.id = "" then 1 else 0)) ∧
    (record = none →
      (validateInputDNSData record zone).length = 1 + (if zone.id = "" then 1 else 0)) ∧
    (NewAggregate (validateInputDNSData record zone) = none ↔
      validateInputDNSData record zone = []) := by
  refine ⟨?_, ?_, ?_, ?_⟩
  · cases record with
    | none => simp [validateInputDNSData]
    | some r =>
      rw [validate_some_nil_iff]
      constructor
      · rintro ⟨h1, h2, h3, hz⟩
        exact ⟨hz, r, rfl, h1, h2, h3⟩
      · rintro ⟨hz, r2, hr2, h1, h2, h3⟩
        cases hr2
        exact ⟨h1, h2, h3, hz⟩
  · rintro r rfl
    by_cases h1 : r.dnsName = "" <;> by_cases h2 : r.recordType = "" <;>
      by_cases h3 : r.targets = [] <;> by_cases hz : zone.id = "" <;>
      simp [validateInputDNSData, string_length_zero, List.length_eq_zero, h1, h2, h3, hz]
  · rintro rfl
    by_cases hz : zone.id = "" <;>
      simp [validateInputDNSData, string_length_zero, hz]
  · simp [NewAggregate, List.isEmpty_iff]

/-- Claim C5, witness: a record violating all three field rules together
with an empty zone id yields four failures, and a fully valid pair yields
none. -/
theorem validation_rules_witness :
    (validateInputDNSData (some ⟨"", "", [], 5⟩) ⟨""⟩).length = 4 ∧
    validateInputDNSData (some ⟨"n", "A", ["t"], 5⟩) ⟨"z"⟩ = [] := by
  constructor
  · have h := (validation_rules (some ⟨"", "", [], 5⟩) ⟨""⟩).2.1 ⟨"", "", [], 5⟩ rfl
    simpa using h
  · exact (validation_rules (some ⟨"n", "A", ["t"], 5⟩) ⟨"z"⟩).1.mpr
      ⟨by decide, ⟨"n", "A", ["t"], 5⟩, rfl, by decide, by decide, by decide⟩

/-! ## Claim C4: validation and zone-resolution short-circuit -/

/-- Claim C4: when validation fails, and when the zone id is absent from
the client registry, `Ensure`, `Replace`, and `Delete` return an error
(carrying the aggregated validation failures, respectively the unknown
zone id), issue zero remote calls (empty trace), and leave the client
state and the record untouched. -/
theorem validation_zone_short_circuit (σ1 : Type) (p : Provider σ1)
    (record : Option DNSRecordSpec) (zone : DNSZone) (s : σ1) :
    (validateInputDNSData record zone ≠ [] →
      (p.Ensure record zone s =
        ⟨.errOut (.validation (validateInputDNSData record zone)), [], s, record⟩ ∧
       p.Replace record zone s =
        ⟨.errOut (.validation (validateInputDNSData record zone)), [], s, record⟩ ∧
       p.Delete record zone s =
        ⟨.errOut (.validation (validateInputDNSData record zone)), [], s, record⟩)) ∧
    (validateInputDNSData record zone = [] → p.dnsServices zone.id = none →
      (p.Ensure record zone s = ⟨.errOut (.unknownZone zone.id), [], s, record⟩ ∧
       p.Replace record zone s = ⟨.errOut (.unknownZone zone.id), [], s, record⟩ ∧
       p.Delete record zone s = ⟨.errOut (.unknownZone zone.id), [], s, record⟩)) := by
  constructor
  · intro hv
    rcases h : validateInputDNSData record zone with _ | ⟨e, es⟩
    · exact absurd h hv
    · refine ⟨?_, ?_, ?_⟩ <;>
        simp [Provider.Ensure, Provider.Replace, Provider.Delete, createOrUpdateDNSRecord, h]
  · intro hv hz
    rcases record with _ | r
    · exact absurd hv (validate_none_ne_nil zone)
    · refine ⟨?_, ?_, ?_⟩ <;>
        simp [Provider.Ensure, Provider.Replace, Provider.Delete, createOrUpdateDNSRecord,
          hv, hz]

/-- Claim C4, witness: an invalid record (empty name) short-circuits, and
a valid record with an unregistered zone short-circuits with the unknown
zone id, both with an empty trace. -/
theorem validation_zone_short_circuit_witness :
    ((storeProvider "z").Ensure (some ⟨"", "A", ["t"], 5⟩) ⟨"z"⟩ emptyStore =
      ⟨.errOut (.validation ["validateInputDNSData: dns record name is empty"]), [],
        emptyStore, some ⟨"", "A", ["t"], 5⟩⟩) ∧
    ((storeProvider "z").Delete (some ⟨"n", "A", ["t"], 5⟩) ⟨"other"⟩ emptyStore =
      ⟨.errOut (.unknownZone "other"), [], emptyStore, some ⟨"n", "A", ["t"], 5⟩⟩) := by
  constructor
  · have h := ((validation_zone_short_circuit Store (storeProvider "z")
      (some ⟨"", "A", ["t"], 5⟩) ⟨"z"⟩ emptyStore).1 (by decide)).1
    rw [h]
    decide
  · exact ((validation_zone_short_circuit Store (storeProvider "z")
      (some ⟨"n", "A", ["t"], 5⟩) ⟨"other"⟩ emptyStore).2 (by decide) rfl).2.2

/-! ## Claim C9: TTL write-back into the caller-visible record -/

/-- Claim C9: on the successful validation/zone path, `Ensure` and
`Replace` write the normalized TTL back into the caller-visible record:
when the requested TTL is 0 or strictly between 1 and 120 the returned
record carries TTL 120 (and differs from the input record); for all other
TTL values the record is returned unchanged. `Delete` never changes the
record, on any input. -/
theorem ttl_write_back (σ1 : Type) (p : Provider σ1) (r : DNSRecordSpec) (zone : DNSZone)
    (s : σ1) (cl : MClient σ1)
    (hv : validateInputDNSData (some r) zone = [])
    (hc : p.dnsServices zone.id = some cl) :
    ((r.recordTTL = 0 ∨ (1 < r.recordTTL ∧ r.recordTTL < 120)) →
      ((p.Ensure (some r) zone s).record = some { r with recordTTL := 120 } ∧
       (p.Replace (some r) zone s).record = some { r with recordTTL := 120 } ∧
       (p.Ensure (some r) zone s).record ≠ some r)) ∧
    (¬(r.recordTTL = 0 ∨ (1 < r.recordTTL ∧ r.recordTTL < 120)) →
      ((p.Ensure (some r) zone s).record = some r ∧
       (p.Replace (some r) zone s).record = some r)) ∧
    (∀ (record : Option DNSRecordSpec) (z : DNSZone) (s2 : σ1),
      (p.Delete record z s2).record = record) := by
  have hrec : ∀ s2 : σ1, (createOrUpdateDNSRecord p (some r) zone s2).record =
      some { r with recordTTL := normalizeRecordTTL r.recordTTL } := by
    intro s2
    rw [createOrUpdate_run p r zone s2 cl hv hc]
  refine ⟨?_, ?_, ?_⟩
  · intro h
    have hn : normalizeRecordTTL r.recordTTL = 120 := by
      simp only [normalizeRecordTTL, defaultCISRecordTTL]
      split_ifs with h' <;> omega
    refine ⟨?_, ?_, ?_⟩
    · rw [Provider.Ensure, hrec, hn]
    · rw [Provider.Replace, hrec, hn]
    · rw [Provider.Ensure, hrec, hn]
      intro heq
      have := congrArg (fun o => (Option.map DNSRecordSpec.recordTTL o)) heq
      simp at this
      omega
  · intro h
    have hn : normalizeRecordTTL r.recordTTL = r.recordTTL := by
      simp only [normalizeRecordTTL, defaultCISRecordTTL]
      split_ifs with h' <;> omega
    constructor
    · rw [Provider.Ensure, hrec, hn]
    · rw [Provider.Replace, hrec, hn]
  · intro record z s2
    exact delete_record_eq p record z s2

/-- Claim C9, witness: a requested TTL of 50 is written back as 120, a
requested TTL of 300 is left unchanged, and `Delete` leaves the record
unchanged. -/
theorem ttl_write_back_witness :
    (((storeProvider "z").Ensure (some ⟨"n", "A", ["t"], 50⟩) ⟨"z"⟩ emptyStore).record =
      some ⟨"n", "A", ["t"], 120⟩) ∧
    (((storeProvider "z").Ensure (some ⟨"n", "A", ["t"], 300⟩) ⟨"z"⟩ emptyStore).record =
      some ⟨"n", "A", ["t"], 300⟩) ∧
    (((storeProvider "z").Delete (some ⟨"n", "A", ["t"], 50⟩) ⟨"z"⟩ emptyStore).record =
      some ⟨"n", "A", ["t"], 50⟩) := by
  refine ⟨?_, ?_, ?_⟩
  · exact ((ttl_write_back Store (storeProvider "z") ⟨"n", "A", ["t"], 50⟩ ⟨"z"⟩ emptyStore
      storeClient (by decide) rfl).1 (by decide)).1
  · exact ((ttl_write_back Store (storeProvider "z") ⟨"n", "A", ["t"], 300⟩ ⟨"z"⟩ emptyStore
      storeClient (by decide) rfl).2.1 (by decide)).1
  · exact (ttl_write_back Store (storeProvider "z") ⟨"n", "A", ["t"], 50⟩ ⟨"z"⟩ emptyStore
      storeClient (by decide) rfl).2.2 (some ⟨"n", "A", ["t"], 50⟩) ⟨"z"⟩ emptyStore

/-! ## Trace-shape lemmas for the per-target loops -/

/-- Every call in an upsert loop trace is a list call with the trimmed
name filter, a create call with the original name, or an update call with
the original name; list filters and create/update payloads all carry the
record type, and create/update carry the normalized TTL. -/
theorem upsertLoop_trace_shape (c : MClient σ) (dn tn rt : String) (ttl : Int) :
    ∀ (ts : List String) (s : σ), ∀ call ∈ (upsertLoop c dn tn rt ttl ts s).trace,
      (∃ ct, call = .list rt tn ct) ∨ (∃ ct, call = .create dn rt ct ttl) ∨
      (∃ rid ct, call = .update rid dn rt ct ttl) := by
  intro ts
  induction ts with
  | nil =>
    intro s call h
    simp [upsertLoop] at h
  | cons t ts ih =>
    intro s call h
    simp only [upsertLoop] at h
    split at h
    · split at h
      · simp at h
        exact Or.inl ⟨t, h⟩
      · simp at h
        rcases h with h | h
        · exact Or.inl ⟨t, h⟩
        · exact ih _ call h
    · split at h
      · simp at h
        exact Or.inl ⟨t, h⟩
      · split at h
        · simp at h
          rcases h with h | h
          · exact Or.inl ⟨t, h⟩
          · exact Or.inr (Or.inl ⟨t, h⟩)
        · simp at h
          rcases h with h | h | h
          · exact Or.inl ⟨t, h⟩
          · exact Or.inr (Or.inl ⟨t, h⟩)
          · exact ih _ call h
      · split at h
        · simp at h
          exact Or.inl ⟨t, h⟩
        · split at h
          · simp at h
            rcases h with h | h
            · exact Or.inl ⟨t, h⟩
            · exact Or.inr (Or.inr ⟨_, t, h⟩)
          · simp at h
            rcases h with h | h | h
            · exact Or.inl ⟨t, h⟩
            · exact Or.inr (Or.inr ⟨_, t, h⟩)
            · exact ih _ call h

/-- Every call in a delete inner-entry loop trace is a delete call. -/
theorem deleteEntriesLoop_trace_shape (c : MClient σ) :
    ∀ (es : List DnsRecordResult) (s : σ), ∀ call ∈ (deleteEntriesLoop c es s).trace,
      ∃ rid, call = .delete rid := by
  intro es
  induction es with
  | nil =>
    intro s call h
    simp [deleteEntriesLoop] at h
  | cons e es ih =>
    intro s call h
    simp only [deleteEntriesLoop] at h
    split at h
    · simp at h
    · split at h
      · simp at h
        exact ⟨_, h⟩
      · simp at h
        rcases h with h | h
        · exact ⟨_, h⟩
        · exact ih _ call h

/-- Every call in a delete per-target loop trace is a list call with the
exact (untrimmed) name filter and the record type, or a delete call. -/
theorem deleteTargetsLoop_trace_shape (c : MClient σ) (dn rt : String) :
    ∀ (ts : List String) (s : σ), ∀ call ∈ (deleteTargetsLoop c dn rt ts s).trace,
      (∃ ct, call = .list rt dn ct) ∨ (∃ rid, call = .delete rid) := by
  intro ts
  induction ts with
  | nil =>
    intro s call h
    simp [deleteTargetsLoop] at h
  | cons t ts ih =>
    intro s call h
    simp only [deleteTargetsLoop] at h
    split at h
    · split at h
      · simp at h
        exact Or.inl ⟨t, h⟩
      · simp at h
        rcases h with h | h
        · exact Or.inl ⟨t, h⟩
        · exact ih _ call h
    · split at h
      · simp at h
        exact Or.inl ⟨t, h⟩
      · split at h
        · simp at h
          rcases h with h | h | h
          · exact Or.inl ⟨t, h⟩
          · exact Or.inr (deleteEntriesLoop_trace_shape c _ _ call h)
          · exact ih _ call h
        · simp at h
          rcases h with h | h
          · exact Or.inl ⟨t, h⟩
          · exact Or.inr (deleteEntriesLoop_trace_shape c _ _ call h)

/-! ## Claim C6: name trimming asymmetry -/

/-- Claim C6: on the validated/resolved path, every list call issued by
`Ensure` filters by the desired name with a single trailing dot stripped,
while every create and update call it issues carries the original
untrimmed name; every list call issued by `Delete` filters by the exact
desired name with no trimming. -/
theorem name_trimming_asymmetry (σ1 : Type) (p : Provider σ1) (r : DNSRecordSpec)
    (zone : DNSZone) (s : σ1) (cl : MClient σ1)
    (hv : validateInputDNSData (some r) zone = [])
    (hc : p.dnsServices zone.id = some cl) :
    (∀ rt2 n ct, RemoteCall.list rt2 n ct ∈ (p.Ensure (some r) zone s).trace →
      n = trimSuffix r.dnsName ".") ∧
    (∀ n rt2 ct tl, RemoteCall.create n rt2 ct tl ∈ (p.Ensure (some r) zone s).trace →
      n = r.dnsName) ∧
    (∀ rid n rt2 ct tl, RemoteCall.update rid n rt2 ct tl ∈ (p.Ensure (some r) zone s).trace →
      n = r.dnsName) ∧
    (∀ rt2 n ct, RemoteCall.list rt2 n ct ∈ (p.Delete (some r) zone s).trace →
      n = r.dnsName) := by
  have he : p.Ensure (some r) zone s =
      ⟨(upsertLoop cl r.dnsName (trimSuffix r.dnsName ".") r.recordType
          (normalizeRecordTTL r.recordTTL) r.targets s).outcome,
       (upsertLoop cl r.dnsName (trimSuffix r.dnsName ".") r.recordType
          (normalizeRecordTTL r.recordTTL) r.targets s).trace,
       (upsertLoop cl r.dnsName (trimSuffix r.dnsName ".") r.recordType
          (normalizeRecordTTL r.recordTTL) r.targets s).state,
       some { r with recordTTL := normalizeRecordTTL r.recordTTL }⟩ :=
    createOrUpdate_run p r zone s cl hv hc
  have hd := delete_run p r zone s cl hv hc
  refine ⟨?_, ?_, ?_, ?_⟩
  · intro rt2 n ct hmem
    rw [he] at hmem
    rcases upsertLoop_trace_shape cl r.dnsName (trimSuffix r.dnsName ".") r.recordType
      (normalizeRecordTTL r.recordTTL) r.targets s _ hmem with ⟨c2, hcall⟩ | ⟨c2, hcall⟩ |
      ⟨rid, c2, hcall⟩ <;> simp_all
  · intro n rt2 ct tl hmem
    rw [he] at hmem
    rcases upsertLoop_trace_shape cl r.dnsName (trimSuffix r.dnsName ".") r.recordType
      (normalizeRecordTTL r.recordTTL) r.targets s _ hmem with ⟨c2, hcall⟩ | ⟨c2, hcall⟩ |
      ⟨rid, c2, hcall⟩ <;> simp_all
  · intro rid n rt2 ct tl hmem
    rw [he] at hmem
    rcases upsertLoop_trace_shape cl r.dnsName (trimSuffix r.dnsName ".") r.recordType
      (normalizeRecordTTL r.recordTTL) r.targets s _ hmem with ⟨c2, hcall⟩ | ⟨c2, hcall⟩ |
      ⟨rid2, c2, hcall⟩ <;> simp_all
  · intro rt2 n ct hmem
    rw [hd] at hmem
    rcases deleteTargetsLoop_trace_shape cl r.dnsName r.recordType r.targets s _ hmem with
      ⟨c2, hcall⟩ | ⟨rid, hcall⟩ <;> simp_all

/-- Claim C6, witness on a wildcard record whose name carries a trailing
dot: the upsert list filter uses the trimmed name, create uses the
original name, and the delete list filter uses the original name. -/
theorem name_trimming_asymmetry_witness :
    ((storeProvider "z").Ensure (some ⟨"*.apps.example.com.", "A", ["t"], 120⟩) ⟨"z"⟩
      emptyStore).trace =
      [.list "A" "*.apps.example.com" "t", .create "*.apps.example.com." "A" "t" 120] ∧
    (∀ rt2 n ct, RemoteCall.list rt2 n ct ∈
      ((storeProvider "z").Ensure (some ⟨"*.apps.example.com.", "A", ["t"], 120⟩) ⟨"z"⟩
        emptyStore).trace → n = "*.apps.example.com") ∧
    (∀ rt2 n ct, RemoteCall.list rt2 n ct ∈
      ((storeProvider "z").Delete (some ⟨"*.apps.example.com.", "A", ["t"], 120⟩) ⟨"z"⟩
        emptyStore).trace → n = "*.apps.example.com.") := by
  refine ⟨by decide, ?_, ?_⟩
  · have h := (name_trimming_asymmetry Store (storeProvider "z")
      ⟨"*.apps.example.com.", "A", ["t"], 120⟩ ⟨"z"⟩ emptyStore storeClient
      (by decide) rfl).1
    intro rt2 n ct hmem
    rw [h rt2 n ct hmem]
    decide
  · exact (name_trimming_asymmetry Store (storeProvider "z")
      ⟨"*.apps.example.com.", "A", ["t"], 120⟩ ⟨"z"⟩ emptyStore storeClient
      (by decide) rfl).2.2.2

/-! ## Claim C7: not-found transport responses are tolerated -/

/-- A client whose every call answers a 404 error. -/
def notFoundClient : MClient Unit :=
  ⟨fun _ _ _ _ => (⟨true, some 404, none⟩, ()),
   fun _ _ _ _ _ => (false, ()),
   fun _ _ _ _ _ _ => (false, ()),
   fun _ _ => (⟨true, some 404⟩, ())⟩

/-- Claim C7: a 404-class list failure is treated as nothing-to-do for the
current target in both the upsert and the delete loop — the loop outcome
is exactly the outcome on the remaining targets, with only the list call
recorded; a 404 delete failure on an individual entry is treated as
already-deleted and the entry loop proceeds; and deleting a record none of
whose targets has a matching remote entry returns success. -/
theorem notfound_tolerance (σ1 : Type) (c : MClient σ1) (dn tn rt : String) (ttl : Int)
    (t : String) (ts : List String) (e : DnsRecordResult) (es : List DnsRecordResult)
    (rid : Nat) (s : σ1) :
    ((c.list s rt tn t).1.err = true ∧ fatalStatus (c.list s rt tn t).1.statusCode = false →
      upsertLoop c dn tn rt ttl (t :: ts) s =
        ⟨(upsertLoop c dn tn rt ttl ts (c.list s rt tn t).2).outcome,
         .list rt tn t :: (upsertLoop c dn tn rt ttl ts (c.list s rt tn t).2).trace,
         (upsertLoop c dn tn rt ttl ts (c.list s rt tn t).2).state⟩) ∧
    ((c.list s rt dn t).1.err = true ∧ fatalStatus (c.list s rt dn t).1.statusCode = false →
      deleteTargetsLoop c dn rt (t :: ts) s =
        ⟨(deleteTargetsLoop c dn rt ts (c.list s rt dn t).2).outcome,
         .list rt dn t :: (deleteTargetsLoop c dn rt ts (c.list s rt dn t).2).trace,
         (deleteTargetsLoop c dn rt ts (c.list s rt dn t).2).state⟩) ∧
    (e.id = some rid ∧ (c.delete s rid).1.err = true ∧
        fatalStatus (c.delete s rid).1.statusCode = false →
      deleteEntriesLoop c (e :: es) s =
        ⟨(deleteEntriesLoop c es (c.delete s rid).2).outcome,
         .delete rid :: (deleteEntriesLoop c es (c.delete s rid).2).trace,
         (deleteEntriesLoop c es (c.delete s rid).2).state⟩) ∧
    (((storeProvider "z").Delete (some ⟨"n", "A", ["t1", "t2"], 120⟩) ⟨"z"⟩
        emptyStore).outcome = .ok) := by
  refine ⟨?_, ?_, ?_, by decide⟩
  · rintro ⟨herr, hnf⟩
    simp [upsertLoop, herr, hnf]
  · rintro ⟨herr, hnf⟩
    simp [deleteTargetsLoop, herr, hnf]
  · rintro ⟨hid, herr, hnf⟩
    simp [deleteEntriesLoop, hid, herr, hnf]

/-- Claim C7, witness: against a client that answers 404 to everything,
the upsert loop skips the first target and continues, and likewise the
delete target loop and the delete entry loop. -/
theorem notfound_tolerance_witness :
    (upsertLoop notFoundClient "n" "nt" "A" 120 ["t1", "t2"] () =
      ⟨(upsertLoop notFoundClient "n" "nt" "A" 120 ["t2"] ()).outcome,
       .list "A" "nt" "t1" :: (upsertLoop notFoundClient "n" "nt" "A" 120 ["t2"] ()).trace,
       (upsertLoop notFoundClient "n" "nt" "A" 120 ["t2"] ()).state⟩) ∧
    (deleteEntriesLoop notFoundClient [⟨some 7⟩, ⟨some 8⟩] () =
      ⟨(deleteEntriesLoop notFoundClient [⟨some 8⟩] ()).outcome,
       .delete 7 :: (deleteEntriesLoop notFoundClient [⟨some 8⟩] ()).trace,
       (deleteEntriesLoop notFoundClient [⟨some 8⟩] ()).state⟩) :=
  ⟨(notfound_tolerance Unit notFoundClient "n" "nt" "A" 120 "t1" ["t2"] ⟨some 0⟩ [] 0 ()).1
      ⟨rfl, rfl⟩,
   (notfound_tolerance Unit notFoundClient "n" "nt" "A" 120 "t1" ["t2"] ⟨some 7⟩ [⟨some 8⟩]
      7 ()).2.2.1 ⟨rfl, rfl, rfl⟩⟩

/-! ## Claim C1: per-target failures short-circuit (claim corrected) -/

/-- A client whose list call fails with status 500 for content "t1" and
succeeds with an empty result for any other content; create always
succeeds. Target "t2" of a two-target record would therefore succeed if
the loop reached it. -/
def target1FailsClient : MClient Unit :=
  ⟨fun _ _ _ ct => (if ct == "t1" then ⟨true, some 500, none⟩ else ⟨false, some 200, some []⟩, ()),
   fun _ _ _ _ _ => (false, ()),
   fun _ _ _ _ _ _ => (false, ()),
   fun _ _ => (⟨true, some 500⟩, ())⟩

/-- The provider registry holding `target1FailsClient` under every zone id. -/
def target1FailsProvider : Provider Unit := ⟨fun _ => some target1FailsClient⟩

/-- Claim C1, counterexample: with a two-target record whose first target
fails its list with a non-404 error while the second target would succeed,
`Ensure` (and `Delete`) return after the very first list call: the trace
contains no call for target "t2", so the loop did not proceed to the
remaining target, and the returned error is the single step error, not an
aggregate listing every per-target failure. -/
theorem per_target_aggregation_counterexample :
    ((target1FailsProvider.Ensure (some ⟨"n", "A", ["t1", "t2"], 120⟩) ⟨"z"⟩ ()).outcome =
      .errOut .listFailed ∧
     (target1FailsProvider.Ensure (some ⟨"n", "A", ["t1", "t2"], 120⟩) ⟨"z"⟩ ()).trace =
      [.list "A" "n" "t1"]) ∧
    ((target1FailsProvider.Delete (some ⟨"n", "A", ["t1", "t2"], 120⟩) ⟨"z"⟩ ()).outcome =
      .errOut .listFailed ∧
     (target1FailsProvider.Delete (some ⟨"n", "A", ["t1", "t2"], 120⟩) ⟨"z"⟩ ()).trace =
      [.list "A" "n" "t1"]) ∧
    ((target1FailsProvider.Ensure (some ⟨"n", "A", ["t2"], 120⟩) ⟨"z"⟩ ()).outcome = .ok) := by
  decide

/-- A client whose list always finds one entry with id 5 and whose update
and delete calls always fail with status 500; create succeeds. -/
def updateFailsClient : MClient Unit :=
  ⟨fun _ _ _ _ => (⟨false, some 200, some [⟨some 5⟩]⟩, ()),
   fun _ _ _ _ _ => (false, ()),
   fun _ _ _ _ _ _ => (true, ()),
   fun _ _ => (⟨true, some 500⟩, ())⟩

/-- Claim C1 (amended): in both the upsert and the delete path a non-404
failure in a per-target list step, a failure in a create step, a failure
in an update step, and a non-404 failure in a per-entry delete step each
abort the operation immediately — the single wrapped step error is
returned and the remaining entries and targets are not attempted (no
aggregation across targets; only validation failures are aggregated). -/
theorem per_target_short_circuit (σ1 : Type) (c : MClient σ1) (dn tn rt : String) (ttl : Int)
    (t : String) (ts : List String) (entry : DnsRecordResult)
    (rest : List DnsRecordResult) (rid : Nat) (s : σ1) :
    ((c.list s rt tn t).1.err = true ∧ fatalStatus (c.list s rt tn t).1.statusCode = true →
      upsertLoop c dn tn rt ttl (t :: ts) s =
        ⟨.errOut .listFailed, [.list rt tn t], (c.list s rt tn t).2⟩ ∧
      deleteTargetsLoop c tn rt (t :: ts) s =
        ⟨.errOut .listFailed, [.list rt tn t], (c.list s rt tn t).2⟩) ∧
    ((c.list s rt tn t).1.err = false ∧ (c.list s rt tn t).1.result = some [] ∧
        (c.create (c.list s rt tn t).2 dn rt t ttl).1 = true →
      upsertLoop c dn tn rt ttl (t :: ts) s =
        ⟨.errOut .createFailed, [.list rt tn t, .create dn rt t ttl],
         (c.create (c.list s rt tn t).2 dn rt t ttl).2⟩) ∧
    ((c.list s rt tn t).1.err = false ∧
        (c.list s rt tn t).1.result = some (entry :: rest) ∧ entry.id = some rid ∧
        (c.update (c.list s rt tn t).2 rid dn rt t ttl).1 = true →
      upsertLoop c dn tn rt ttl (t :: ts) s =
        ⟨.errOut .updateFailed, [.list rt tn t, .update rid dn rt t ttl],
         (c.update (c.list s rt tn t).2 rid dn rt t ttl).2⟩) ∧
    ((c.list s rt tn t).1.err = false ∧
        (c.list s rt tn t).1.result = some (entry :: rest) ∧ entry.id = some rid ∧
        (c.delete (c.list s rt tn t).2 rid).1.err = true ∧
        fatalStatus (c.delete (c.list s rt tn t).2 rid).1.statusCode = true →
      deleteTargetsLoop c tn rt (t :: ts) s =
        ⟨.errOut .deleteFailed, [.list rt tn t, .delete rid],
         (c.delete (c.list s rt tn t).2 rid).2⟩) := by
  refine ⟨?_, ?_, ?_, ?_⟩
  · rintro ⟨herr, hf⟩
    constructor
    · simp [upsertLoop, herr, hf]
    · simp [deleteTargetsLoop, herr, hf]
  · rintro ⟨herr, hres, hcr⟩
    simp [upsertLoop, herr, hres, hcr]
  · rintro ⟨herr, hres, hid, hupd⟩
    simp [upsertLoop, herr, hres, hid, hupd]
  · rintro ⟨herr, hres, hid, hdel, hdf⟩
    simp [deleteTargetsLoop, deleteEntriesLoop, herr, hres, hid, hdel, hdf]

/-- Claim C1, witness: against the client that fails target "t1" with a
500, the loops stop after the first list call with the single list error;
against the client whose update and delete calls fail with a 500, the
upsert loop stops after the failed update and the delete loop after the
failed entry delete, the remaining entry list and target "t2" never
touched. -/
theorem per_target_short_circuit_witness :
    (upsertLoop target1FailsClient "n" "n" "A" 120 ["t1", "t2"] () =
      ⟨.errOut .listFailed, [.list "A" "n" "t1"], ()⟩ ∧
     deleteTargetsLoop target1FailsClient "n" "A" ["t1", "t2"] () =
      ⟨.errOut .listFailed, [.list "A" "n" "t1"], ()⟩) ∧
    (upsertLoop updateFailsClient "n" "n" "A" 120 ["t1", "t2"] () =
      ⟨.errOut .updateFailed, [.list "A" "n" "t1", .update 5 "n" "A" "t1" 120], ()⟩) ∧
    (deleteTargetsLoop updateFailsClient "n" "A" ["t1", "t2"] () =
      ⟨.errOut .deleteFailed, [.list "A" "n" "t1", .delete 5], ()⟩) :=
  ⟨(per_target_short_circuit Unit target1FailsClient "n" "n" "A" 120 "t1" ["t2"]
      ⟨some 5⟩ [] 5 ()).1 ⟨rfl, rfl⟩,
   (per_target_short_circuit Unit updateFailsClient "n" "n" "A" 120 "t1" ["t2"]
      ⟨some 5⟩ [] 5 ()).2.2.1 ⟨rfl, rfl, rfl, rfl⟩,
   (per_target_short_circuit Unit updateFailsClient "n" "n" "A" 120 "t1" ["t2"]
      ⟨some 5⟩ [] 5 ()).2.2.2 ⟨rfl, rfl, rfl, rfl, rfl⟩⟩

/-! ## Claim C10: nil entry id, guarded in Delete, unguarded in upsert -/

/-- Precondition under which the upsert update branch is safe: every
non-empty list result's first entry carries a non-nil id. -/
def headIdsNonNil (c : MClient σ) : Prop :=
  ∀ (s : σ) (ty n ct : String) (e : DnsRecordResult) (es : List DnsRecordResult),
    (c.list s ty n ct).1.result = some (e :: es) → e.id ≠ none

/-- Under `headIdsNonNil` the upsert loop never dereferences a nil id. -/
theorem upsertLoop_no_nilDeref (c : MClient σ) (hgood : headIdsNonNil c)
    (dn tn rt : String) (ttl : Int) :
    ∀ (ts : List String) (s : σ), (upsertLoop c dn tn rt ttl ts s).outcome ≠ .nilDeref := by
  intro ts
  induction ts with
  | nil =>
    intro s
    simp [upsertLoop]
  | cons t ts ih =>
    intro s
    simp only [upsertLoop]
    split
    · split
      · simp
      · simpa using ih _
    · split
      · simp
      · split
        · simp
        · simpa using ih _
      · rename_i hres
        split
        · rename_i hid
          exact absurd hid (hgood _ _ _ _ _ _ hres)
        · split
          · simp
          · simpa using ih _

/-- The delete entry loop never yields a nil dereference (nil ids are
guarded). -/
theorem deleteEntriesLoop_no_nilDeref (c : MClient σ) :
    ∀ (es : List DnsRecordResult) (s : σ),
      (deleteEntriesLoop c es s).outcome ≠ .nilDeref := by
  intro es
  induction es with
  | nil =>
    intro s
    simp [deleteEntriesLoop]
  | cons e es ih =>
    intro s
    simp only [deleteEntriesLoop]
    split
    · simp
    · split
      · simp
      · simpa using ih _

/-- The delete target loop never yields a nil dereference. -/
theorem deleteTargetsLoop_no_nilDeref (c : MClient σ) (dn rt : String) :
    ∀ (ts : List String) (s : σ),
      (deleteTargetsLoop c dn rt ts s).outcome ≠ .nilDeref := by
  intro ts
  induction ts with
  | nil =>
    intro s
    simp [deleteTargetsLoop]
  | cons t ts ih =>
    intro s
    simp only [deleteTargetsLoop]
    split
    · split
      · simp
      · simpa using ih _
    · split
      · simp
      · rename_i entries heq
        rcases ho : (deleteEntriesLoop c entries (c.list s rt dn t).2).outcome with _ | e2 | _
        · simp only [ho]
          simpa using ih _
        · simp only [ho]
          simp
        · exact absurd ho (deleteEntriesLoop_no_nilDeref c entries _)

/-- Every client the store provider registry resolves is the store
client. -/
theorem storeProvider_clients (zid z : String) (cl : MClient Store)
    (h : (storeProvider zid).dnsServices z = some cl) : cl = storeClient := by
  simp only [storeProvider] at h
  split at h
  · exact (Option.some.inj h).symm
  · exact absurd h (by simp)

/-- The store client satisfies the non-nil head id precondition: its list
results carry the store entry ids. -/
theorem storeClient_headIdsNonNil : headIdsNonNil storeClient := by
  intro s ty n ct e es h
  simp only [storeClient, storeList] at h
  rcases hmap : s.entries.filter (entryMatches n ty ct) with _ | ⟨a, l⟩
  · rw [hmap] at h
    simp at h
  · rw [hmap] at h
    simp at h
    rcases h with ⟨h1, _⟩
    rw [← h1]
    simp

/-- A client whose list result's first entry has a nil id. -/
def nilIdClient : MClient Unit :=
  ⟨fun _ _ _ _ => (⟨false, some 200, some [⟨none⟩]⟩, ()),
   fun _ _ _ _ _ => (false, ()),
   fun _ _ _ _ _ _ => (false, ()),
   fun _ _ => (⟨false, some 200⟩, ())⟩

/-- The provider registry holding `nilIdClient` under every zone id. -/
def nilIdProvider : Provider Unit := ⟨fun _ => some nilIdClient⟩

/-- Claim C10: `Ensure`/`Replace` dereference the first listed entry's id
without a nil check — they are free of nil dereference for every provider
whose clients satisfy `headIdsNonNil`, but a client returning a nil first
id drives `Ensure` into the nil dereference; `Delete` guards the same case
and returns the "record id is nil" error instead, and `Delete` never nil
dereferences an entry id on any client. -/
theorem nil_id_guard_asymmetry :
    (∀ (σ1 : Type) (p : Provider σ1),
      (∀ z cl, p.dnsServices z = some cl → headIdsNonNil cl) →
      ∀ (record : Option DNSRecordSpec) (zone : DNSZone) (s : σ1),
        (p.Ensure record zone s).outcome ≠ .nilDeref ∧
        (p.Replace record zone s).outcome ≠ .nilDeref) ∧
    ((nilIdProvider.Ensure (some ⟨"n", "A", ["t"], 120⟩) ⟨"z"⟩ ()).outcome = .nilDeref) ∧
    ((nilIdProvider.Delete (some ⟨"n", "A", ["t"], 120⟩) ⟨"z"⟩ ()).outcome =
      .errOut .nilRecordID) ∧
    (∀ (σ1 : Type) (p : Provider σ1) (record : Option DNSRecordSpec) (zone : DNSZone)
      (s : σ1), (p.Delete record zone s).outcome ≠ .nilDeref) := by
  refine ⟨?_, by decide, by decide, ?_⟩
  · intro σ1 p hp record zone s
    have hcu : (createOrUpdateDNSRecord p record zone s).outcome ≠ .nilDeref := by
      unfold createOrUpdateDNSRecord
      rcases hval : validateInputDNSData record zone with _ | ⟨e, es⟩
      · rcases hz : p.dnsServices zone.id with _ | cl
        · simp
        · rcases record with _ | r
          · exact absurd hval (validate_none_ne_nil zone)
          · simpa using upsertLoop_no_nilDeref cl (hp zone.id cl hz) r.dnsName
              (trimSuffix r.dnsName ".") r.recordType (normalizeRecordTTL r.recordTTL)
              r.targets s
      · simp
    exact ⟨hcu, hcu⟩
  · intro σ1 p record zone s
    unfold Provider.Delete
    rcases hval : validateInputDNSData record zone with _ | ⟨e, es⟩
    · rcases hz : p.dnsServices zone.id with _ | cl
      · simp
      · rcases record with _ | r
        · exact absurd hval (validate_none_ne_nil zone)
        · simpa using deleteTargetsLoop_no_nilDeref cl r.dnsName r.recordType r.targets s
    · simp

/-- Claim C10, witness: the in-memory store client satisfies the non-nil
head id precondition, so `Ensure` against it cannot nil-dereference. -/
theorem nil_id_guard_asymmetry_witness :
    ((storeProvider "z").Ensure (some ⟨"n", "A", ["t"], 120⟩) ⟨"z"⟩ emptyStore).outcome ≠
      .nilDeref :=
  (nil_id_guard_asymmetry.1 Store (storeProvider "z")
    (fun z cl hcl => by
      rw [storeProvider_clients "z" z cl hcl]
      exact storeClient_headIdsNonNil)
    (some ⟨"n", "A", ["t"], 120⟩) ⟨"z"⟩ emptyStore).1

/-! ## Claim C8: idempotence of Ensure against the in-memory store -/

/-- `normalizeRecordTTL` is idempotent, so a second `Ensure` on the
record the first call handed back normalizes to the same TTL. -/
theorem normalizeRecordTTL_idem (t : Int) :
    normalizeRecordTTL (normalizeRecordTTL t) = normalizeRecordTTL t := by
  simp only [normalizeRecordTTL, defaultCISRecordTTL]
  split_ifs <;> omega

/-- Invariant tying a store to one reconciled record shape: every entry
carries the trimmed name, the record type and the normalized TTL; entry
ids are distinct and below the store's next fresh id; and no
`(name, type, content)` key has more than one entry. -/
def storeCanonical (tn rt : String) (ttl : Int) (s : Store) : Prop :=
  (∀ e ∈ s.entries, e.name = tn ∧ e.recType = rt ∧ e.ttl = ttl) ∧
  (s.entries.map StoreEntry.id).Nodup ∧
  (∀ e ∈ s.entries, e.id < s.nextId) ∧
  (∀ t : String, (s.entries.filter (entryMatches tn rt t)).length ≤ 1)

theorem storeCanonical_empty (tn rt : String) (ttl : Int) :
    storeCanonical tn rt ttl emptyStore := by
  simp [storeCanonical, emptyStore]

/-- The store obtained by the create branch of one upsert step. -/
def createdStore (s : Store) (dn rt t : String) (ttl : Int) : Store :=
  ⟨s.entries ++ [⟨s.nextId, trimSuffix dn ".", rt, t, ttl⟩], s.nextId + 1⟩

/-- One upsert step against the store with no matching entry reduces to a
list call, a create call, and the loop on the remaining targets over the
extended store. -/
theorem upsertStep_create (dn rt t : String) (ttl : Int) (ts : List String) (s : Store)
    (hfil : s.entries.filter (entryMatches (trimSuffix dn ".") rt t) = []) :
    upsertLoop storeClient dn (trimSuffix dn ".") rt ttl (t :: ts) s =
      ⟨(upsertLoop storeClient dn (trimSuffix dn ".") rt ttl ts
          (createdStore s dn rt t ttl)).outcome,
       .list rt (trimSuffix dn ".") t :: .create dn rt t ttl ::
         (upsertLoop storeClient dn (trimSuffix dn ".") rt ttl ts
           (createdStore s dn rt t ttl)).trace,
       (upsertLoop storeClient dn (trimSuffix dn ".") rt ttl ts
         (createdStore s dn rt t ttl)).state⟩ := by
  simp [upsertLoop, storeClient, storeList, storeCreate, hfil, createdStore]

/-- A freshly created entry matches its own key. -/
theorem entryMatches_self (tn rt t : String) (ttl : Int) (i : Nat) :
    entryMatches tn rt t (⟨i, tn, rt, t, ttl⟩ : StoreEntry) = true := by
  simp [entryMatches]

/-- A freshly created entry does not match a key with different
content. -/
theorem entryMatches_content_false (tn rt t t2 : String) (ttl : Int) (i : Nat)
    (h : t ≠ t2) :
    entryMatches tn rt t2 (⟨i, tn, rt, t, ttl⟩ : StoreEntry) = false := by
  simp [entryMatches]
  exact h

/-- Updating an entry of the store with exactly the values it already
carries leaves the store unchanged. -/
theorem storeUpdate_identity (s : Store) (a : StoreEntry) (dn rt t : String) (ttl : Int)
    (ha : a ∈ s.entries) (hnd : (s.entries.map StoreEntry.id).Nodup)
    (hname : a.name = trimSuffix dn ".") (htype : a.recType = rt)
    (hcontent : a.content = t) (httl : a.ttl = ttl) :
    storeUpdate s a.id dn rt t ttl = (false, s) := by
  have hmap : s.entries.map (fun e =>
      if e.id == a.id then
        (⟨a.id, trimSuffix dn ".", rt, t, ttl⟩ : StoreEntry) else e) = s.entries := by
    refine (List.map_congr_left ?_).trans (List.map_id' s.entries)
    intro e he
    by_cases hid : (e.id == a.id) = true
    · have hea : e = a :=
        List.inj_on_of_nodup_map hnd he ha (by simpa using hid)
      subst hea
      cases e
      simp_all
    · simp [hid]
  unfold storeUpdate
  rw [if_pos (List.any_eq_true.mpr ⟨a, ha, by simp⟩)]
  rw [Prod.mk.injEq]
  refine ⟨rfl, ?_⟩
  cases s with
  | mk entries nextId =>
    simp only at hmap
    rw [Store.mk.injEq]
    exact ⟨hmap, rfl⟩

/-- One upsert step against the store whose matching entry already
carries the canonical values reduces to a list call, an update call on
that entry's id, and the loop on the remaining targets over the unchanged
store. -/
theorem upsertStep_update (dn rt t : String) (ttl : Int) (ts : List String) (s : Store)
    (a : StoreEntry)
    (hfil : s.entries.filter (entryMatches (trimSuffix dn ".") rt t) = [a])
    (hnd : (s.entries.map StoreEntry.id).Nodup)
    (hname : a.name = trimSuffix dn ".") (htype : a.recType = rt) (httl : a.ttl = ttl) :
    upsertLoop storeClient dn (trimSuffix dn ".") rt ttl (t :: ts) s =
      ⟨(upsertLoop storeClient dn (trimSuffix dn ".") rt ttl ts s).outcome,
       .list rt (trimSuffix dn ".") t :: .update a.id dn rt t ttl ::
         (upsertLoop storeClient dn (trimSuffix dn ".") rt ttl ts s).trace,
       (upsertLoop storeClient dn (trimSuffix dn ".") rt ttl ts s).state⟩ := by
  have ha : a ∈ s.entries := List.mem_of_mem_filter (hfil ▸ List.mem_singleton_self a)
  have hcontent : a.content = t := by
    have hm := List.of_mem_filter (hfil ▸ List.mem_singleton_self a)
    simp only [entryMatches, Bool.and_eq_true, beq_iff_eq] at hm
    exact hm.2
  have hupd := storeUpdate_identity s a dn rt t ttl ha hnd hname htype hcontent httl
  simp [upsertLoop, storeClient, storeList, hfil, hupd]

/-- Running the upsert loop over a canonical store succeeds, preserves
the invariant, leaves every already-settled key's entries untouched, and
settles every processed target to exactly one entry. -/
theorem upsertLoop_store_establishes (dn rt : String) (ttl : Int) :
    ∀ (ts : List String) (s : Store),
      storeCanonical (trimSuffix dn ".") rt ttl s →
      (upsertLoop storeClient dn (trimSuffix dn ".") rt ttl ts s).outcome = .ok ∧
      storeCanonical (trimSuffix dn ".") rt ttl
        (upsertLoop storeClient dn (trimSuffix dn ".") rt ttl ts s).state ∧
      (∀ t : String,
        s.entries.filter (entryMatches (trimSuffix dn ".") rt t) ≠ [] →
        (upsertLoop storeClient dn (trimSuffix dn ".") rt ttl ts s).state.entries.filter
            (entryMatches (trimSuffix dn ".") rt t) =
          s.entries.filter (entryMatches (trimSuffix dn ".") rt t)) ∧
      (∀ t ∈ ts, ((upsertLoop storeClient dn (trimSuffix dn ".") rt ttl ts
          s).state.entries.filter (entryMatches (trimSuffix dn ".") rt t)).length = 1) := by
  intro ts
  induction ts with
  | nil =>
    intro s hQ
    simp [upsertLoop, hQ]
  | cons t ts ih =>
    intro s hQ
    obtain ⟨hq1, hq2, hq3, hq4⟩ := hQ
    rcases hfil : s.entries.filter (entryMatches (trimSuffix dn ".") rt t) with _ | ⟨a, l⟩
    · -- no matching entry: create branch
      have hnew : entryMatches (trimSuffix dn ".") rt t
          (⟨s.nextId, trimSuffix dn ".", rt, t, ttl⟩ : StoreEntry) = true :=
        entryMatches_self (trimSuffix dn ".") rt t ttl s.nextId
      have hQ' : storeCanonical (trimSuffix dn ".") rt ttl (createdStore s dn rt t ttl) := by
        refine ⟨?_, ?_, ?_, ?_⟩
        · intro e he
          simp only [createdStore, List.mem_append, List.mem_singleton] at he
          rcases he with he | he
          · exact hq1 e he
          · subst he
            exact ⟨rfl, rfl, rfl⟩
        · simp only [createdStore, List.map_append, List.nodup_append]
          refine ⟨hq2, by simp, ?_⟩
          intro x hx
          simp only [List.map_cons, List.map_nil, List.mem_singleton]
          intro hxs
          rcases List.mem_map.mp hx with ⟨e, he, hei⟩
          subst hxs
          exact absurd (hei ▸ hq3 e he) (lt_irrefl _)
        · intro e he
          simp only [createdStore, List.mem_append, List.mem_singleton] at he
          rcases he with he | he
          · exact Nat.lt_succ_of_lt (hq3 e he)
          · subst he
            exact Nat.lt_succ_self _
        · intro t2
          by_cases ht2 : t2 = t
          · subst ht2
            simp [createdStore, List.filter_append, hfil, hnew]
          · have hf : entryMatches (trimSuffix dn ".") rt t2
                (⟨s.nextId, trimSuffix dn ".", rt, t, ttl⟩ : StoreEntry) = false :=
              entryMatches_content_false (trimSuffix dn ".") rt t t2 ttl s.nextId
                (fun h => ht2 h.symm)
            simp only [createdStore, List.filter_append]
            simp [hf]
            exact hq4 t2
      obtain ⟨ih1, ih2, ih3, ih4⟩ := ih (createdStore s dn rt t ttl) hQ'
      rw [upsertStep_create dn rt t ttl ts s hfil]
      refine ⟨by simpa using ih1, by simpa using ih2, ?_, ?_⟩
      · intro t2 hne
        have ht2 : t2 ≠ t := by
          intro he
          subst he
          exact hne hfil
        have hsame : (createdStore s dn rt t ttl).entries.filter
            (entryMatches (trimSuffix dn ".") rt t2) =
            s.entries.filter (entryMatches (trimSuffix dn ".") rt t2) := by
          have hf : entryMatches (trimSuffix dn ".") rt t2
              (⟨s.nextId, trimSuffix dn ".", rt, t, ttl⟩ : StoreEntry) = false :=
            entryMatches_content_false (trimSuffix dn ".") rt t t2 ttl s.nextId
              (fun h => ht2 h.symm)
          simp [createdStore, List.filter_append, hf]
        have := ih3 t2 (by rw [hsame]; exact hne)
        simpa [hsame] using this
      · intro t2 ht2
        simp only [List.mem_cons] at ht2
        rcases ht2 with ht2 | ht2
        · rw [ht2]
          have hone : (createdStore s dn rt t ttl).entries.filter
              (entryMatches (trimSuffix dn ".") rt t) =
              [⟨s.nextId, trimSuffix dn ".", rt, t, ttl⟩] := by
            simp [createdStore, List.filter_append, hfil, hnew]
          have hpres := ih3 t (by rw [hone]; simp)
          dsimp only
          rw [hpres, hone]
          rfl
        · exact ih4 t2 ht2
    · -- a matching entry exists: update branch, identity on the store
      have hsing : s.entries.filter (entryMatches (trimSuffix dn ".") rt t) = [a] := by
        have hlen := hq4 t
        rw [hfil] at hlen ⊢
        simp only [List.length_cons] at hlen
        have hl : l = [] := List.length_eq_zero.mp (by omega)
        rw [hl]
      have ha : a ∈ s.entries := List.mem_of_mem_filter (hsing ▸ List.mem_singleton_self a)
      obtain ⟨hname, htype, httl⟩ := hq1 a ha
      obtain ⟨ih1, ih2, ih3, ih4⟩ := ih s ⟨hq1, hq2, hq3, hq4⟩
      rw [upsertStep_update dn rt t ttl ts s a hsing hq2 hname htype httl]
      refine ⟨by simpa using ih1, by simpa using ih2, ?_, ?_⟩
      · intro t2 hne
        simpa using ih3 t2 hne
      · intro t2 ht2
        simp only [List.mem_cons] at ht2
        rcases ht2 with ht2 | ht2
        · rw [ht2]
          have hpres := ih3 t (by rw [hsing]; simp)
          dsimp only
          rw [hpres, hsing]
          rfl
        · exact ih4 t2 ht2

/-- Running the upsert loop over a canonical store in which every target
already has exactly one entry performs only list and update calls, leaves
the store exactly unchanged, and updates only ids of existing entries. -/
theorem upsertLoop_store_saturated (dn rt : String) (ttl : Int) :
    ∀ (ts : List String) (s : Store),
      storeCanonical (trimSuffix dn ".") rt ttl s →
      (∀ t ∈ ts, (s.entries.filter (entryMatches (trimSuffix dn ".") rt t)).length = 1) →
      (upsertLoop storeClient dn (trimSuffix dn ".") rt ttl ts s).outcome = .ok ∧
      (upsertLoop storeClient dn (trimSuffix dn ".") rt ttl ts s).state = s ∧
      (∀ call ∈ (upsertLoop storeClient dn (trimSuffix dn ".") rt ttl ts s).trace,
        call.isCreate = false) ∧
      (∀ (rid : Nat) (n2 rt2 ct : String) (tl : Int),
        RemoteCall.update rid n2 rt2 ct tl ∈
          (upsertLoop storeClient dn (trimSuffix dn ".") rt ttl ts s).trace →
        ∃ e ∈ s.entries, e.id = rid) := by
  intro ts
  induction ts with
  | nil =>
    intro s hQ hsat
    simp [upsertLoop]
  | cons t ts ih =>
    intro s hQ hsat
    obtain ⟨hq1, hq2, hq3, hq4⟩ := hQ
    obtain ⟨a, hsing⟩ := List.length_eq_one.mp (hsat t (List.mem_cons_self t ts))
    have ha : a ∈ s.entries := List.mem_of_mem_filter (hsing ▸ List.mem_singleton_self a)
    obtain ⟨hname, htype, httl⟩ := hq1 a ha
    obtain ⟨ih1, ih2, ih3, ih4⟩ := ih s ⟨hq1, hq2, hq3, hq4⟩
      (fun t2 ht2 => hsat t2 (List.mem_cons_of_mem t ht2))
    rw [upsertStep_update dn rt t ttl ts s a hsing hq2 hname htype httl]
    refine ⟨by simpa using ih1, by simpa using ih2, ?_, ?_⟩
    · intro call hcall
      simp only [List.mem_cons] at hcall
      rcases hcall with hcall | hcall | hcall
      · subst hcall
        rfl
      · subst hcall
        rfl
      · exact ih3 call hcall
    · intro rid n2 rt2 ct tl hcall
      simp only [List.mem_cons] at hcall
      rcases hcall with hcall | hcall | hcall
      · cases hcall
      · cases hcall
        exact ⟨a, ha, rfl⟩
      · exact ih4 rid n2 rt2 ct tl hcall

/-- Claim C8: starting from the empty store, `Ensure` succeeds and leaves
exactly one remote entry per target; a second `Ensure` with the record and
state the first call produced succeeds, performs no create call, updates
only provider-assigned ids of entries existing after the first call, and
leaves the store exactly as the first call left it. -/
theorem ensure_idempotent (r : DNSRecordSpec) (zid : String)
    (hn : r.dnsName ≠ "") (hrt : r.recordType ≠ "") (htg : r.targets ≠ []) (hz : zid ≠ "")
    (out1 out2 : OpResult Store)
    (h1 : out1 = (storeProvider zid).Ensure (some r) ⟨zid⟩ emptyStore)
    (h2 : out2 = (storeProvider zid).Ensure out1.record ⟨zid⟩ out1.state) :
    out1.outcome = .ok ∧ out2.outcome = .ok ∧ out2.state = out1.state ∧
    (∀ t ∈ r.targets,
      (out1.state.entries.filter
        (entryMatches (trimSuffix r.dnsName ".") r.recordType t)).length = 1) ∧
    (∀ call ∈ out2.trace, call.isCreate = false) ∧
    (∀ (rid : Nat) (n2 rt2 ct : String) (tl : Int),
      RemoteCall.update rid n2 rt2 ct tl ∈ out2.trace →
      ∃ e ∈ out1.state.entries, e.id = rid) := by
  have hv : validateInputDNSData (some r) ⟨zid⟩ = [] :=
    (validate_some_nil_iff r ⟨zid⟩).mpr ⟨hn, hrt, htg, hz⟩
  have hc : (storeProvider zid).dnsServices (DNSZone.mk zid).id = some storeClient := by
    simp [storeProvider]
  have hrun1 := createOrUpdate_run (storeProvider zid) r ⟨zid⟩ emptyStore storeClient hv hc
  obtain ⟨e1, e2, e3, e4⟩ := upsertLoop_store_establishes r.dnsName r.recordType
    (normalizeRecordTTL r.recordTTL) r.targets emptyStore
    (storeCanonical_empty (trimSuffix r.dnsName ".") r.recordType
      (normalizeRecordTTL r.recordTTL))
  have hout1 : out1 = ⟨(upsertLoop storeClient r.dnsName (trimSuffix r.dnsName ".")
      r.recordType (normalizeRecordTTL r.recordTTL) r.targets emptyStore).outcome,
      (upsertLoop storeClient r.dnsName (trimSuffix r.dnsName ".") r.recordType
        (normalizeRecordTTL r.recordTTL) r.targets emptyStore).trace,
      (upsertLoop storeClient r.dnsName (trimSuffix r.dnsName ".") r.recordType
        (normalizeRecordTTL r.recordTTL) r.targets emptyStore).state,
      some { r with recordTTL := normalizeRecordTTL r.recordTTL }⟩ := by
    rw [h1]
    exact hrun1
  set L := upsertLoop storeClient r.dnsName (trimSuffix r.dnsName ".") r.recordType
    (normalizeRecordTTL r.recordTTL) r.targets emptyStore with hL
  set r1 : DNSRecordSpec := { r with recordTTL := normalizeRecordTTL r.recordTTL } with hr1
  have hv1 : validateInputDNSData (some r1) ⟨zid⟩ = [] :=
    (validate_some_nil_iff r1 ⟨zid⟩).mpr ⟨hn, hrt, htg, hz⟩
  have hrun2 := createOrUpdate_run (storeProvider zid) r1 ⟨zid⟩ L.state storeClient hv1 hc
  have hfields : r1.dnsName = r.dnsName ∧ r1.recordType = r.recordType ∧
      r1.targets = r.targets ∧ normalizeRecordTTL r1.recordTTL =
      normalizeRecordTTL r.recordTTL := by
    refine ⟨rfl, rfl, rfl, ?_⟩
    simp only [hr1]
    exact normalizeRecordTTL_idem r.recordTTL
  obtain ⟨s1, s2, s3, s4⟩ := upsertLoop_store_saturated r.dnsName r.recordType
    (normalizeRecordTTL r.recordTTL) r.targets L.state e2 e4
  have hout2 : out2 = ⟨(upsertLoop storeClient r.dnsName (trimSuffix r.dnsName ".")
      r.recordType (normalizeRecordTTL r.recordTTL) r.targets L.state).outcome,
      (upsertLoop storeClient r.dnsName (trimSuffix r.dnsName ".") r.recordType
        (normalizeRecordTTL r.recordTTL) r.targets L.state).trace,
      (upsertLoop storeClient r.dnsName (trimSuffix r.dnsName ".") r.recordType
        (normalizeRecordTTL r.recordTTL) r.targets L.state).state,
      some { r1 with recordTTL := normalizeRecordTTL r1.recordTTL }⟩ := by
    rw [h2, hout1]
    simp only [Provider.Ensure]
    rw [hrun2]
    rw [hfields.2.2.2]
  rw [hout1, hout2]
  simp only
  exact ⟨e1, s1, s2, e4, s3, s4⟩

/-- Claim C8, witness: a concrete two-target record with trailing-dot
name: the first `Ensure` from the empty store succeeds and the second
leaves the store unchanged. -/
theorem ensure_idempotent_witness :
    (((storeProvider "zone1").Ensure
        (some ⟨"example.com.", "A", ["1.2.3.4", "5.6.7.8"], 0⟩) ⟨"zone1"⟩
        emptyStore).outcome = .ok) ∧
    (((storeProvider "zone1").Ensure
        ((storeProvider "zone1").Ensure
          (some ⟨"example.com.", "A", ["1.2.3.4", "5.6.7.8"], 0⟩) ⟨"zone1"⟩
          emptyStore).record ⟨"zone1"⟩
        ((storeProvider "zone1").Ensure
          (some ⟨"example.com.", "A", ["1.2.3.4", "5.6.7.8"], 0⟩) ⟨"zone1"⟩
          emptyStore).state).state =
      ((storeProvider "zone1").Ensure
        (some ⟨"example.com.", "A", ["1.2.3.4", "5.6.7.8"], 0⟩) ⟨"zone1"⟩
        emptyStore).state) := by
  have h := ensure_idempotent ⟨"example.com.", "A", ["1.2.3.4", "5.6.7.8"], 0⟩ "zone1"
    (by decide) (by decide) (by decide) (by decide) _ _ rfl rfl
  exact ⟨h.1, h.2.2.1⟩

end ibm
